import Mathlib

/-!
Verification of the concurrent-aggregation core described in the repository
notes (src/main.rs): a lock-protected shared counter mutated by a pool of
workers, and a multi-producer/single-consumer channel drained by one
receiver.  The counter and channel internals live in the language's
standard library, so they are modelled here from the specification's
contracts (spec.md sections 4.1, 4.2 and 5) as explicit state-transition
systems; the example drivers in src/main.rs appear as concrete scenarios.
-/

namespace RustFull

/-- Modelled from the spec: the per-worker progress through the
shared-counter protocol body `acquire(); read; write(+1); release`,
with a terminal `panicked` status for a worker that aborts while holding
the lock.  The Boolean on `panicked` records whether the worker's write
had already landed when it aborted. -/
inductive WStatus : Type where
  | idle
  | acquired
  | readDone
  | wroteDone
  | done
  | panicked (c : Bool)
deriving DecidableEq, Repr

/-- A status during which the worker holds the lock. -/
def WStatus.holding : WStatus → Bool
  | .acquired => true
  | .readDone => true
  | .wroteDone => true
  | _ => false

/-- A status whose worker has already performed its write of the counter. -/
def WStatus.contrib : WStatus → Bool
  | .wroteDone => true
  | .done => true
  | .panicked c => c
  | _ => false

/-- Modelled from the spec: the global state of one SharedCounter shared by
`n` workers: the protected integer `value`, the set of current lock
holders (proved, not assumed, to have at most one element), each worker's
protocol status and local register, and the poison flag set when a holder
aborts. -/
structure CState (n : Nat) where
  value : Int
  holders : Finset (Fin n)
  status : Fin n → WStatus
  reg : Fin n → Int
  poisoned : Bool

/-- Labels identifying which worker performs which protocol action. -/
inductive CLabel (n : Nat) : Type where
  | acquire (w : Fin n)
  | read (w : Fin n)
  | write (w : Fin n)
  | release (w : Fin n)
  | panic (w : Fin n)
deriving DecidableEq, Repr

/-- Modelled from the spec: one atomic action of the shared-counter
protocol.  `acquire` succeeds only on a free, unpoisoned lock; `read` and
`write` require the acting worker to hold the lock; `release` is the
normal scope exit of the Guard, `panic` the aborting scope exit, both of
which free the lock, and `panic` additionally poisons the counter. -/
inductive CStep : {n : Nat} → CLabel n → CState n → CState n → Prop where
  | acquire {n} (w : Fin n) (s : CState n)
      (hfree : s.holders = ∅) (hpo : s.poisoned = false)
      (hst : s.status w = .idle) :
      CStep (.acquire w) s
        { s with holders := {w}, status := Function.update s.status w .acquired }
  | read {n} (w : Fin n) (s : CState n)
      (hm : w ∈ s.holders) (hst : s.status w = .acquired) :
      CStep (.read w) s
        { s with reg := Function.update s.reg w s.value,
                 status := Function.update s.status w .readDone }
  | write {n} (w : Fin n) (s : CState n)
      (hm : w ∈ s.holders) (hst : s.status w = .readDone) :
      CStep (.write w) s
        { s with value := s.reg w + 1,
                 status := Function.update s.status w .wroteDone }
  | release {n} (w : Fin n) (s : CState n)
      (hm : w ∈ s.holders) (hst : s.status w = .wroteDone) :
      CStep (.release w) s
        { s with holders := s.holders.erase w,
                 status := Function.update s.status w .done }
  | panic {n} (w : Fin n) (s : CState n)
      (hm : w ∈ s.holders) (hh : (s.status w).holding = true) :
      CStep (.panic w) s
        { s with holders := s.holders.erase w,
                 status := Function.update s.status w (.panicked (s.status w).contrib),
                 poisoned := true }

/-- Some worker performs some action. -/
def StepAny {n : Nat} (s s' : CState n) : Prop := ∃ l, CStep l s s'

/-- Reachability under arbitrary interleaving of worker actions. -/
def Reach {n : Nat} : CState n → CState n → Prop := Relation.ReflTransGen StepAny

/-- Modelled from the spec: `SharedCounter::new(v0)` with `n` workers, all
still idle, lock free, not poisoned. -/
def initState (n : Nat) (v0 : Int) : CState n :=
  { value := v0, holders := ∅, status := fun _ => .idle,
    reg := fun _ => 0, poisoned := false }

/-- Number of workers whose write has already landed. -/
def countContribF {n : Nat} (f : Fin n → WStatus) : Nat :=
  (Finset.univ.filter fun w => (f w).contrib = true).card

theorem countContribF_update_eq {n : Nat} (f : Fin n → WStatus) (w : Fin n)
    (st : WStatus) (h : st.contrib = (f w).contrib) :
    countContribF (Function.update f w st) = countContribF f := by
  unfold countContribF
  congr 1
  apply Finset.filter_congr
  intro x _
  rcases eq_or_ne x w with rfl | hne
  · simp [Function.update_same, h]
  · simp [Function.update_noteq hne]

theorem countContribF_update_true {n : Nat} (f : Fin n → WStatus) (w : Fin n)
    (st : WStatus) (h1 : (f w).contrib = false) (h2 : st.contrib = true) :
    countContribF (Function.update f w st) = countContribF f + 1 := by
  unfold countContribF
  have hset : (Finset.univ.filter fun x => ((Function.update f w st) x).contrib = true)
      = insert w (Finset.univ.filter fun x => (f x).contrib = true) := by
    ext x
    rcases eq_or_ne x w with rfl | hne
    · simp [Function.update_same, h2]
    · simp [Function.update_noteq hne, hne]
  rw [hset, Finset.card_insert_of_not_mem]
  simp [h1]

/-- The inductive invariant of the shared-counter protocol: the value
records the initial value plus the number of landed writes; the holder set
matches the holding statuses; mutual exclusion; and a worker that has read
but not yet written saw the current value. -/
def Inv {n : Nat} (v0 : Int) (s : CState n) : Prop :=
  s.value = v0 + countContribF s.status ∧
  (∀ w, w ∈ s.holders ↔ (s.status w).holding = true) ∧
  s.holders.card ≤ 1 ∧
  (∀ w, s.status w = .readDone → s.reg w = s.value)

theorem inv_init (n : Nat) (v0 : Int) : Inv v0 (initState n v0) := by
  refine ⟨?_, ?_, ?_, ?_⟩
  · simp [initState, countContribF, WStatus.contrib]
  · intro w; simp [initState, WStatus.holding]
  · simp [initState]
  · intro w h; simp [initState] at h

theorem inv_step {n : Nat} {l : CLabel n} {s s' : CState n}
    (hstep : CStep l s s') (hi : Inv v0 s) : Inv v0 s' := by
  obtain ⟨h1, h2, h3, h4⟩ := hi
  cases hstep with
  | acquire w s hfree hpo hst =>
    refine ⟨?_, ?_, ?_, ?_⟩
    · dsimp only
      rw [countContribF_update_eq s.status w _ (by rw [hst]; rfl)]
      exact h1
    · intro w'
      dsimp only
      rcases eq_or_ne w' w with rfl | hne
      · simp [Function.update_same, WStatus.holding]
      · have hw2 := h2 w'
        rw [hfree] at hw2
        simp only [Finset.not_mem_empty, false_iff] at hw2
        simp [Function.update_noteq hne, hne, hw2]
    · simp
    · intro w' hw'
      dsimp only at hw' ⊢
      rcases eq_or_ne w' w with rfl | hne
      · rw [Function.update_same] at hw'; cases hw'
      · rw [Function.update_noteq hne] at hw'
        exact h4 w' hw'
  | read w s hm hst =>
    refine ⟨?_, ?_, ?_, ?_⟩
    · dsimp only
      rw [countContribF_update_eq s.status w _ (by rw [hst]; rfl)]
      exact h1
    · intro w'
      dsimp only
      rcases eq_or_ne w' w with rfl | hne
      · simp [Function.update_same, WStatus.holding, hm]
      · simp [Function.update_noteq hne, h2 w']
    · exact h3
    · intro w' hw'
      dsimp only at hw' ⊢
      rcases eq_or_ne w' w with rfl | hne
      · rw [Function.update_same]
      · rw [Function.update_noteq hne] at hw' ⊢
        exact h4 w' hw'
  | write w s hm hst =>
    refine ⟨?_, ?_, ?_, ?_⟩
    · dsimp only
      rw [countContribF_update_true s.status w WStatus.wroteDone (by rw [hst]; rfl) rfl]
      rw [h4 w hst, h1]
      push_cast
      ring
    · intro w'
      dsimp only
      rcases eq_or_ne w' w with rfl | hne
      · simp [Function.update_same, WStatus.holding, hm]
      · simp [Function.update_noteq hne, h2 w']
    · exact h3
    · intro w' hw'
      dsimp only at hw' ⊢
      rcases eq_or_ne w' w with rfl | hne
      · rw [Function.update_same] at hw'; cases hw'
      · rw [Function.update_noteq hne] at hw'
        have hw'mem : w' ∈ s.holders := (h2 w').mpr (by rw [hw']; rfl)
        exact absurd (Finset.card_le_one.mp h3 w' hw'mem w hm) hne
  | release w s hm hst =>
    refine ⟨?_, ?_, ?_, ?_⟩
    · dsimp only
      rw [countContribF_update_eq s.status w _ (by rw [hst]; rfl)]
      exact h1
    · intro w'
      dsimp only
      rcases eq_or_ne w' w with rfl | hne
      · simp [Function.update_same, WStatus.holding]
      · simp [Function.update_noteq hne, Finset.mem_erase, hne, h2 w']
    · exact le_trans Finset.card_erase_le h3
    · intro w' hw'
      dsimp only at hw' ⊢
      rcases eq_or_ne w' w with rfl | hne
      · rw [Function.update_same] at hw'; cases hw'
      · rw [Function.update_noteq hne] at hw'
        exact h4 w' hw'
  | panic w s hm hh =>
    refine ⟨?_, ?_, ?_, ?_⟩
    · dsimp only
      rw [countContribF_update_eq s.status w (WStatus.panicked (s.status w).contrib) rfl]
      exact h1
    · intro w'
      dsimp only
      rcases eq_or_ne w' w with rfl | hne
      · simp [Function.update_same, WStatus.holding]
      · simp [Function.update_noteq hne, Finset.mem_erase, hne, h2 w']
    · exact le_trans Finset.card_erase_le h3
    · intro w' hw'
      dsimp only at hw' ⊢
      rcases eq_or_ne w' w with rfl | hne
      · rw [Function.update_same] at hw'; cases hw'
      · rw [Function.update_noteq hne] at hw'
        exact h4 w' hw'

theorem inv_reach {n : Nat} {s s' : CState n} (h : Reach s s')
    (hi : Inv v0 s) : Inv v0 s' := by
  induction h with
  | refl => exact hi
  | tail _ hstep ih =>
    obtain ⟨l, hl⟩ := hstep
    exact inv_step hl ih

theorem step_poisoned {n : Nat} {l : CLabel n} {s s' : CState n}
    (h : CStep l s s') (hpo : s.poisoned = true) : s'.poisoned = true := by
  cases h with
  | acquire w s hfree hpo2 hst => rw [hpo] at hpo2; cases hpo2
  | read w s hm hst => exact hpo
  | write w s hm hst => exact hpo
  | release w s hm hst => exact hpo
  | panic w s hm hh => rfl

/-! Concrete executions used as witnesses: `demoA` is the one-worker run of
the increment protocol from value 0 (the shape of the ten-worker example in
src/main.rs lines 367-383), `demoB` aborts while holding the lock, and
`demoC` is a two-worker state where worker 0 releases and worker 1 is
still idle. -/

def demoA0 : CState 1 := initState 1 0

def demoA1 : CState 1 :=
  { demoA0 with holders := {0}, status := Function.update demoA0.status 0 .acquired }

def demoA2 : CState 1 :=
  { demoA1 with reg := Function.update demoA1.reg 0 demoA1.value,
                status := Function.update demoA1.status 0 .readDone }

def demoA3 : CState 1 :=
  { demoA2 with value := demoA2.reg 0 + 1,
                status := Function.update demoA2.status 0 .wroteDone }

def demoA4 : CState 1 :=
  { demoA3 with holders := demoA3.holders.erase 0,
                status := Function.update demoA3.status 0 .done }

theorem demoA_step1 : CStep (.acquire 0) demoA0 demoA1 :=
  CStep.acquire 0 demoA0 rfl rfl rfl

theorem demoA_step2 : CStep (.read 0) demoA1 demoA2 :=
  CStep.read 0 demoA1 (by decide) (by decide)

theorem demoA_step3 : CStep (.write 0) demoA2 demoA3 :=
  CStep.write 0 demoA2 (by decide) (by decide)

theorem demoA_step4 : CStep (.release 0) demoA3 demoA4 :=
  CStep.release 0 demoA3 (by decide) (by decide)

theorem demoA_reach : Reach demoA0 demoA4 :=
  Relation.ReflTransGen.head ⟨_, demoA_step1⟩
    (Relation.ReflTransGen.head ⟨_, demoA_step2⟩
      (Relation.ReflTransGen.head ⟨_, demoA_step3⟩
        (Relation.ReflTransGen.single ⟨_, demoA_step4⟩)))

def demoB2 : CState 1 :=
  { demoA1 with holders := demoA1.holders.erase 0,
                status := Function.update demoA1.status 0
                  (WStatus.panicked (demoA1.status 0).contrib),
                poisoned := true }

theorem demoB_panic : CStep (.panic 0) demoA1 demoB2 :=
  CStep.panic 0 demoA1 (by decide) (by decide)

def demoC0 : CState 2 :=
  { value := 7, holders := {0},
    status := fun w => if w = 0 then WStatus.wroteDone else WStatus.idle,
    reg := fun _ => 6, poisoned := false }

def demoC1 : CState 2 :=
  { demoC0 with holders := demoC0.holders.erase 0,
                status := Function.update demoC0.status 0 WStatus.done }

theorem demoC_release : CStep (.release 0) demoC0 demoC1 :=
  CStep.release 0 demoC0 (by decide) (by decide)

/-- C1: for every N ≥ 0 workers each acquiring the lock and incrementing
the counter by 1, in every interleaving in which all N workers finish
normally (all joins succeed), the final counter value is exactly the
initial value plus N: no update is lost. -/
theorem shared_counter_no_lost_updates {n : Nat} (v0 : Int) (s : CState n)
    (hreach : Reach (initState n v0) s)
    (hdone : ∀ w, s.status w = WStatus.done) :
    s.value = v0 + n := by
  obtain ⟨h1, _, _, _⟩ := inv_reach hreach (inv_init n v0)
  have hcount : countContribF s.status = n := by
    unfold countContribF
    have hall : (Finset.univ.filter fun w => ((s.status w)).contrib = true)
        = (Finset.univ : Finset (Fin n)) := by
      apply Finset.filter_true_of_mem
      intro w _
      rw [hdone w]
      rfl
    rw [hall, Finset.card_univ, Fintype.card_fin]
  rw [h1, hcount]

theorem shared_counter_no_lost_updates_witness :
    demoA4.value = (0 : Int) + (1 : Nat) :=
  shared_counter_no_lost_updates 0 demoA4 demoA_reach (by decide)

/-- C2: in every reachable state of the shared-counter protocol at most
one worker holds the lock, and a read or write step of the counter value
can only be performed by a worker that holds the lock in the pre-state. -/
theorem mutual_exclusion :
    (∀ (n : Nat) (v0 : Int) (s : CState n),
        Reach (initState n v0) s → s.holders.card ≤ 1) ∧
    (∀ (n : Nat) (w : Fin n) (s s' : CState n),
        CStep (.read w) s s' → w ∈ s.holders) ∧
    (∀ (n : Nat) (w : Fin n) (s s' : CState n),
        CStep (.write w) s s' → w ∈ s.holders) := by
  refine ⟨?_, ?_, ?_⟩
  · intro n v0 s hreach
    exact (inv_reach hreach (inv_init n v0)).2.2.1
  · intro n w s s' h
    cases h
    assumption
  · intro n w s s' h
    cases h
    assumption

theorem mutual_exclusion_witness :
    demoA1.holders.card ≤ 1 ∧ (0 : Fin 1) ∈ demoA1.holders ∧
      (0 : Fin 1) ∈ demoA2.holders :=
  ⟨mutual_exclusion.1 1 0 demoA1 (Relation.ReflTransGen.single ⟨_, demoA_step1⟩),
   mutual_exclusion.2.1 1 0 demoA1 demoA2 demoA_step2,
   mutual_exclusion.2.2 1 0 demoA2 demoA3 demoA_step3⟩

/-- C3: the Guard frees the lock on scope exit, on normal return
(`release`) as well as on abort while holding (`panic`); these scope exits
are the only transitions that ever free the lock (there is no separate
unlock operation); and after a normal scope exit of the sole holder of an
unpoisoned counter, an acquire by any still-idle worker succeeds. -/
theorem guard_scope_release :
    (∀ (n : Nat) (w : Fin n) (s s' : CState n),
        CStep (.release w) s s' → w ∉ s'.holders) ∧
    (∀ (n : Nat) (w : Fin n) (s s' : CState n),
        CStep (.panic w) s s' → w ∉ s'.holders) ∧
    (∀ (n : Nat) (l : CLabel n) (w : Fin n) (s s' : CState n),
        CStep l s s' → w ∈ s.holders → w ∉ s'.holders →
          l = .release w ∨ l = .panic w) ∧
    (∀ (n : Nat) (w w' : Fin n) (s s' : CState n),
        CStep (.release w) s s' → s.holders = {w} → s.poisoned = false →
          s'.status w' = .idle → ∃ s'', CStep (.acquire w') s' s'') := by
  refine ⟨?_, ?_, ?_, ?_⟩
  · intro n w s s' h
    cases h
    exact Finset.not_mem_erase _ _
  · intro n w s s' h
    cases h
    exact Finset.not_mem_erase _ _
  · intro n l w s s' h hmem hnot
    cases h with
    | acquire w2 s2 hfree hpo hst =>
      rw [hfree] at hmem
      exact absurd hmem (Finset.not_mem_empty w)
    | read w2 s2 hm hst => exact absurd hmem hnot
    | write w2 s2 hm hst => exact absurd hmem hnot
    | release w2 s2 hm hst =>
      left
      have hw : w = w2 := by
        by_contra hne
        exact hnot (Finset.mem_erase.mpr ⟨hne, hmem⟩)
      rw [hw]
    | panic w2 s2 hm hh =>
      right
      have hw : w = w2 := by
        by_contra hne
        exact hnot (Finset.mem_erase.mpr ⟨hne, hmem⟩)
      rw [hw]
  · intro n w w' s s' h hsingle hpo hidle
    cases h
    refine ⟨_, CStep.acquire w' _ ?_ ?_ ?_⟩
    · dsimp only
      rw [hsingle]
      exact Finset.erase_singleton w
    · exact hpo
    · exact hidle

theorem guard_scope_release_witness :
    (0 : Fin 1) ∉ demoA4.holders ∧ (0 : Fin 1) ∉ demoB2.holders ∧
    (CLabel.release (0 : Fin 1) = CLabel.release 0 ∨
      CLabel.release (0 : Fin 1) = CLabel.panic 0) ∧
    (∃ s'', CStep (CLabel.acquire (1 : Fin 2)) demoC1 s'') :=
  ⟨guard_scope_release.1 1 0 demoA3 demoA4 demoA_step4,
   guard_scope_release.2.1 1 0 demoA1 demoB2 demoB_panic,
   guard_scope_release.2.2.1 1 (CLabel.release 0) 0 demoA3 demoA4 demoA_step4
     (by decide) (by decide),
   guard_scope_release.2.2.2 2 0 1 demoC0 demoC1 demoC_release (by decide) rfl
     (by decide)⟩

/-- Modelled from the spec: the error a caller of `acquire()` receives on
a poisoned SharedCounter, carrying the last-known value. -/
inductive LockError : Type where
  | lockPoisoned (lastValue : Int)
deriving DecidableEq, Repr

/-- Modelled from the spec: the outcome of `acquire()` as seen by a
caller: on a poisoned SharedCounter it fails with `LockPoisoned` carrying
the last-known value rather than granting access; otherwise the caller
may proceed. -/
def acquireResult {n : Nat} (s : CState n) : Except LockError Unit :=
  if s.poisoned then Except.error (LockError.lockPoisoned s.value) else Except.ok ()

/-- C4: a holder that aborts while holding the lock poisons the counter;
the poison flag is permanent (preserved by every subsequent transition);
from a poisoned state no acquire transition exists, and the acquire call
reports `LockPoisoned` carrying the last-known counter value. -/
theorem poisoning_permanent :
    (∀ (n : Nat) (w : Fin n) (s s' : CState n),
        CStep (.panic w) s s' → s'.poisoned = true) ∧
    (∀ (n : Nat) (s s' : CState n),
        Reach s s' → s.poisoned = true → s'.poisoned = true) ∧
    (∀ (n : Nat) (w : Fin n) (s s' : CState n),
        s.poisoned = true → ¬ CStep (.acquire w) s s') ∧
    (∀ (n : Nat) (s : CState n),
        s.poisoned = true →
          acquireResult s = Except.error (LockError.lockPoisoned s.value)) := by
  refine ⟨?_, ?_, ?_, ?_⟩
  · intro n w s s' h
    cases h
    rfl
  · intro n s s' h hpo
    induction h with
    | refl => exact hpo
    | tail _ hstep ih =>
      obtain ⟨l, hl⟩ := hstep
      exact step_poisoned hl ih
  · intro n w s s' hpo h
    cases h
    simp_all
  · intro n s hpo
    unfold acquireResult
    rw [hpo]
    rfl

theorem poisoning_permanent_witness :
    demoB2.poisoned = true ∧ demoB2.poisoned = true ∧
    (¬ CStep (CLabel.acquire (0 : Fin 1)) demoB2 demoA1) ∧
    acquireResult demoB2 = Except.error (LockError.lockPoisoned demoB2.value) :=
  ⟨poisoning_permanent.1 1 0 demoA1 demoB2 demoB_panic,
   poisoning_permanent.2.1 1 demoB2 demoB2 Relation.ReflTransGen.refl (by decide),
   poisoning_permanent.2.2.1 1 0 demoB2 demoA1 (by decide),
   poisoning_permanent.2.2.2 1 demoB2 (by decide)⟩

/-- Modelled from the spec: the clone-and-share pattern for SharedCounter
handles: a registry of counter slots plus handles, each handle naming the
slot it points at; cloning a handle adds a handle to the same slot and
does not duplicate the integer. -/
structure Registry where
  counters : List Int
  handles : List Nat
deriving DecidableEq, Repr

/-- The counter slot a handle points at. -/
def target (r : Registry) (h : Nat) : Nat := r.handles.getD h 0

/-- Modelled from the spec: `SharedCounter::new(v)` allocates a fresh slot
holding `v` and returns a handle to it. -/
def newCounter (r : Registry) (v : Int) : Registry × Nat :=
  ({ counters := r.counters ++ [v], handles := r.handles ++ [r.counters.length] },
   r.handles.length)

/-- Modelled from the spec: cloning a handle yields a new handle to the
same slot. -/
def cloneHandle (r : Registry) (h : Nat) : Registry × Nat :=
  ({ r with handles := r.handles ++ [target r h] }, r.handles.length)

/-- Modelled from the spec: a write through a Guard obtained from handle
`h` stores into the slot `h` points at. -/
def writeVia (r : Registry) (h : Nat) (v : Int) : Registry :=
  { r with counters := r.counters.set (target r h) v }

/-- Modelled from the spec: a read through a Guard obtained from handle
`h`. -/
def readVia (r : Registry) (h : Nat) : Int :=
  r.counters.getD (target r h) 0

/-- C10: a write through the Guard mutates the single shared slot, not a
copy: a cloned handle points at the same slot as the original and cloning
leaves every counter slot untouched, and after writing `v` through one
handle, a read through any handle aliasing the same slot returns `v`. -/
theorem write_shared_not_copy :
    (∀ (r : Registry) (h : Nat),
        target (cloneHandle r h).1 (cloneHandle r h).2 = target r h ∧
        (cloneHandle r h).1.counters = r.counters) ∧
    (∀ (r : Registry) (h h' : Nat) (v : Int),
        target r h' = target r h → target r h < r.counters.length →
          readVia (writeVia r h v) h' = v) := by
  refine ⟨?_, ?_⟩
  · intro r h
    refine ⟨?_, rfl⟩
    show (r.handles ++ [target r h]).getD r.handles.length 0 = target r h
    rw [List.getD_eq_getElem?_getD, List.getElem?_concat_length]
    rfl
  · intro r h h' v hsame hlt
    show (r.counters.set (target r h) v).getD (target r h') 0 = v
    rw [hsame, List.getD_eq_getElem?_getD, List.getElem?_set_self hlt]
    rfl

theorem write_shared_not_copy_witness :
    readVia (writeVia { counters := [5], handles := [0, 0] } 0 6) 1 = 6 :=
  write_shared_not_copy.2 { counters := [5], handles := [0, 0] } 0 1 6 rfl
    (by decide)

/-- Modelled from the spec: the error returned by `Sender.send` when no
receiver remains; it hands the rejected message back to the caller. -/
structure SendError (α : Type) where
  msg : α
deriving DecidableEq, Repr

/-- Modelled from the spec: the state of one mpsc channel: the queued
messages tagged by the id of the sender handle that enqueued them, in
arrival order; the set of live sender-handle ids; and whether the sole
receiver still exists. -/
structure ChState (α : Type) where
  queue : List (Nat × α)
  senders : Finset Nat
  receiverAlive : Bool

/-- Modelled from the spec: `Sender.send(msg)`: enqueues at the back when
the receiver exists, otherwise fails with `SendError` carrying the
message back; nothing is dropped silently and nothing else changes. -/
def send {α : Type} (s : ChState α) (sid : Nat) (m : α) :
    ChState α × Except (SendError α) Unit :=
  if s.receiverAlive then
    ({ s with queue := s.queue ++ [(sid, m)] }, Except.ok ())
  else
    (s, Except.error ⟨m⟩)

/-- Outcome of one receive attempt: a message (with the ghost id of its
sender), end-of-stream, or a suspension because the queue is empty while
senders remain. -/
inductive RecvResult (α : Type) : Type where
  | ok (sid : Nat) (m : α)
  | disconnected
  | wouldBlock
deriving DecidableEq, Repr

/-- Modelled from the spec: `Receiver.recv()`: pops the front message if
one is queued; on an empty queue it signals `disconnected` exactly when
every sender handle has been dropped, and otherwise suspends. -/
def recvStep {α : Type} (s : ChState α) : ChState α × RecvResult α :=
  match s.queue with
  | [] =>
    if s.senders = ∅ then (s, RecvResult.disconnected)
    else (s, RecvResult.wouldBlock)
  | e :: rest => ({ s with queue := rest }, RecvResult.ok e.1 e.2)

def chDemoDead : ChState Nat := ⟨[], ∅, false⟩

def chDemoOpen : ChState Nat := ⟨[], {0}, true⟩

def chDemoReady : ChState Nat := ⟨[(0, 5)], ∅, true⟩

/-- C5: `send` called after the receiver has been dropped returns a
`SendError` that carries the message back to the caller, leaving the
channel unchanged (nothing is lost silently and nothing panics), and
`send` succeeds and enqueues whenever the receiver still exists. -/
theorem send_error_on_dropped_receiver :
    (∀ (α : Type) (s : ChState α) (sid : Nat) (m : α),
        s.receiverAlive = false →
          send s sid m = (s, Except.error ⟨m⟩)) ∧
    (∀ (α : Type) (s : ChState α) (sid : Nat) (m : α),
        s.receiverAlive = true →
          send s sid m =
            ({ s with queue := s.queue ++ [(sid, m)] }, Except.ok ())) := by
  constructor <;> intro α s sid m h <;> simp [send, h]

theorem send_error_on_dropped_receiver_witness :
    send chDemoDead 0 42 = (chDemoDead, Except.error ⟨42⟩) ∧
    send chDemoOpen 0 42 =
      ({ chDemoOpen with queue := chDemoOpen.queue ++ [(0, 42)] }, Except.ok ()) :=
  ⟨send_error_on_dropped_receiver.1 Nat chDemoDead 0 42 rfl,
   send_error_on_dropped_receiver.2 Nat chDemoOpen 0 42 rfl⟩

/-- C6: `recv` signals `disconnected` exactly when the queue is empty and
every sender handle has been dropped — never while a sender remains; it
suspends (`wouldBlock`) exactly when the queue is empty but a sender
remains; and whenever a message is queued it returns the front message
immediately. -/
theorem recv_disconnected_iff :
    ∀ (α : Type) (s : ChState α),
      ((recvStep s).2 = RecvResult.disconnected ↔
          s.queue = [] ∧ s.senders = ∅) ∧
      ((recvStep s).2 = RecvResult.wouldBlock ↔
          s.queue = [] ∧ s.senders ≠ ∅) ∧
      (s.queue ≠ [] →
        ∃ sid m, (recvStep s).2 = RecvResult.ok sid m ∧
          (recvStep s).1.queue = s.queue.tail) := by
  intro α s
  obtain ⟨q, sd, ra⟩ := s
  cases q with
  | nil =>
    by_cases hsd : sd = ∅ <;> simp [recvStep, hsd]
  | cons e rest =>
    refine ⟨by simp [recvStep], by simp [recvStep],
      fun _ => ⟨e.1, e.2, by simp [recvStep]⟩⟩

theorem recv_disconnected_iff_witness :
    ∃ sid m, (recvStep chDemoReady).2 = RecvResult.ok sid m ∧
      (recvStep chDemoReady).1.queue = chDemoReady.queue.tail :=
  (recv_disconnected_iff Nat chDemoReady).2.2 (by decide)

theorem send_fst_receiverAlive {α : Type} (s : ChState α) (sid : Nat) (m : α) :
    ((send s sid m).1).receiverAlive = s.receiverAlive := by
  by_cases h : s.receiverAlive <;> simp [send, h]

theorem send_fst_senders {α : Type} (s : ChState α) (sid : Nat) (m : α) :
    ((send s sid m).1).senders = s.senders := by
  by_cases h : s.receiverAlive <;> simp [send, h]

theorem send_fst_queue_alive {α : Type} (s : ChState α) (sid : Nat) (m : α)
    (h : s.receiverAlive = true) :
    ((send s sid m).1).queue = s.queue ++ [(sid, m)] := by
  simp [send, h]

/-- A fresh channel with sender-handle set `S` and the receiver alive. -/
def emptyCh (α : Type) (S : Finset Nat) : ChState α := ⟨[], S, true⟩

/-- All sender handles dropped. -/
def closeSenders {α : Type} (s : ChState α) : ChState α := { s with senders := ∅ }

/-- Perform a whole interleaved trace of sends; each entry carries the id
of the sender handle performing it. -/
def sendAll {α : Type} (s : ChState α) (tr : List (Nat × α)) : ChState α :=
  tr.foldl (fun st e => (send st e.1 e.2).1) s

/-- The subsequence of a trace contributed by one sender handle. -/
def sentBy {α : Type} (sid : Nat) (tr : List (Nat × α)) : List α :=
  (tr.filter fun e => e.1 == sid).map Prod.snd

/-- The receiver drains the channel by repeated `recvStep` calls,
collecting the arrivals (with their ghost sender ids) in order. -/
def drainAux {α : Type} : Nat → ChState α → List (Nat × α)
  | 0, _ => []
  | fuel + 1, s =>
    match recvStep s with
    | (s', RecvResult.ok sid m) => (sid, m) :: drainAux fuel s'
    | _ => []

def drainT {α : Type} (s : ChState α) : List (Nat × α) :=
  drainAux s.queue.length s

theorem sendAll_receiverAlive {α : Type} (tr : List (Nat × α)) (s : ChState α) :
    (sendAll s tr).receiverAlive = s.receiverAlive := by
  induction tr generalizing s with
  | nil => rfl
  | cons e rest ih =>
    unfold sendAll at *
    rw [List.foldl_cons, ih, send_fst_receiverAlive]

theorem sendAll_queue {α : Type} (tr : List (Nat × α)) (s : ChState α)
    (h : s.receiverAlive = true) :
    (sendAll s tr).queue = s.queue ++ tr := by
  induction tr generalizing s with
  | nil => simp [sendAll]
  | cons e rest ih =>
    unfold sendAll at *
    rw [List.foldl_cons, ih _ (by rw [send_fst_receiverAlive]; exact h),
      send_fst_queue_alive _ _ _ h]
    simp

theorem drainAux_eq {α : Type} (fuel : Nat) (s : ChState α)
    (h : s.queue.length ≤ fuel) : drainAux fuel s = s.queue := by
  induction fuel generalizing s with
  | zero =>
    have hnil : s.queue = [] := List.eq_nil_of_length_eq_zero (Nat.le_zero.mp h)
    rw [hnil]
    rfl
  | succ fuel ih =>
    obtain ⟨q, sd, ra⟩ := s
    cases q with
    | nil => by_cases hsd : sd = ∅ <;> simp [drainAux, recvStep, hsd]
    | cons e rest =>
      simp only [drainAux, recvStep]
      rw [ih ⟨rest, sd, ra⟩ (Nat.le_of_succ_le_succ h)]

theorem drainT_eq {α : Type} (s : ChState α) : drainT s = s.queue :=
  drainAux_eq s.queue.length s (le_refl _)

/-- C7: per-producer FIFO: for every interleaved trace of sends, the
arrivals the receiver observes, projected to any one sender handle, are
exactly that handle's sends in their original order; and across handles
no global order is promised: two traces with identical per-handle
sequences can be observed in different global orders. -/
theorem fifo_per_producer :
    (∀ (α : Type) (S : Finset Nat) (tr : List (Nat × α)) (sid : Nat),
        sentBy sid (drainT (closeSenders (sendAll (emptyCh α S) tr))) =
          sentBy sid tr) ∧
    (∃ tr1 tr2 : List (Nat × Nat),
        sentBy 0 tr1 = sentBy 0 tr2 ∧ sentBy 1 tr1 = sentBy 1 tr2 ∧
        drainT (closeSenders (sendAll (emptyCh Nat {0, 1}) tr1)) ≠
          drainT (closeSenders (sendAll (emptyCh Nat {0, 1}) tr2))) := by
  constructor
  · intro α S tr sid
    have hq : (closeSenders (sendAll (emptyCh α S) tr)).queue = tr := by
      show (sendAll (emptyCh α S) tr).queue = tr
      rw [sendAll_queue tr (emptyCh α S) rfl]
      rfl
    rw [drainT_eq, hq]
  · exact ⟨[(0, 10), (1, 20)], [(1, 20), (0, 10)], by decide, by decide, by decide⟩

/-- The channel after the receiver has drained the whole queue. -/
def drained {α : Type} (s : ChState α) : ChState α := { s with queue := [] }

/-- Modelled from the spec: one step of iterating a Receiver as a
sequence: the iterator's next() is a recv() whose failure ends the
iteration. -/
def iterNext {α : Type} (s : ChState α) : ChState α × Option α :=
  match recvStep s with
  | (s', RecvResult.ok _ m) => (s', some m)
  | (s', _) => (s', none)

def iterAux {α : Type} : Nat → ChState α → List α
  | 0, _ => []
  | fuel + 1, s =>
    match iterNext s with
    | (s', some m) => m :: iterAux fuel s'
    | (_, none) => []

/-- Modelled from the spec: the sequence of messages produced by
iterating the Receiver (the `for received in rx` loops of src/main.rs). -/
def iterList {α : Type} (s : ChState α) : List α := iterAux s.queue.length s

def recvLoopAux {α : Type} : Nat → ChState α → List α
  | 0, _ => []
  | fuel + 1, s =>
    match recvStep s with
    | (s', RecvResult.ok _ m) => m :: recvLoopAux fuel s'
    | _ => []

/-- Repeatedly calling `recv()` and collecting the messages until it
stops returning messages (`Disconnected` on a closed channel). -/
def recvUntilDisconnected {α : Type} (s : ChState α) : List α :=
  recvLoopAux s.queue.length s

theorem iterAux_eq {α : Type} (fuel : Nat) (s : ChState α)
    (h : s.queue.length ≤ fuel) : iterAux fuel s = s.queue.map Prod.snd := by
  induction fuel generalizing s with
  | zero =>
    have hnil : s.queue = [] := List.eq_nil_of_length_eq_zero (Nat.le_zero.mp h)
    rw [hnil]
    rfl
  | succ fuel ih =>
    obtain ⟨q, sd, ra⟩ := s
    cases q with
    | nil => by_cases hsd : sd = ∅ <;> simp [iterAux, iterNext, recvStep, hsd]
    | cons e rest =>
      simp only [iterAux, iterNext, recvStep]
      rw [ih ⟨rest, sd, ra⟩ (Nat.le_of_succ_le_succ h)]
      rfl

theorem recvLoopAux_eq {α : Type} (fuel : Nat) (s : ChState α)
    (h : s.queue.length ≤ fuel) : recvLoopAux fuel s = s.queue.map Prod.snd := by
  induction fuel generalizing s with
  | zero =>
    have hnil : s.queue = [] := List.eq_nil_of_length_eq_zero (Nat.le_zero.mp h)
    rw [hnil]
    rfl
  | succ fuel ih =>
    obtain ⟨q, sd, ra⟩ := s
    cases q with
    | nil => by_cases hsd : sd = ∅ <;> simp [recvLoopAux, recvStep, hsd]
    | cons e rest =>
      simp only [recvLoopAux, recvStep]
      rw [ih ⟨rest, sd, ra⟩ (Nat.le_of_succ_le_succ h)]
      rfl

/-- C8: once every sender handle is closed, iterating the Receiver yields
exactly the messages that repeatedly calling `recv()` until
`Disconnected` yields, in the same order; the sequence is the finite list
of queued messages, and it is not restartable: iterating the drained
channel yields nothing. -/
theorem iter_eq_recv_loop :
    ∀ (α : Type) (s : ChState α), s.senders = ∅ →
      iterList s = recvUntilDisconnected s ∧
      iterList s = s.queue.map Prod.snd ∧
      iterList (drained s) = [] := by
  intro α s _
  refine ⟨?_, ?_, ?_⟩
  · rw [iterList, recvUntilDisconnected, iterAux_eq _ _ (le_refl _),
      recvLoopAux_eq _ _ (le_refl _)]
  · exact iterAux_eq _ _ (le_refl _)
  · rfl

def chDemoClosed : ChState Nat := ⟨[(0, 3), (0, 4)], ∅, true⟩

theorem iter_eq_recv_loop_witness :
    iterList chDemoClosed = recvUntilDisconnected chDemoClosed ∧
    iterList chDemoClosed = chDemoClosed.queue.map Prod.snd ∧
    iterList (drained chDemoClosed) = [] :=
  iter_eq_recv_loop Nat chDemoClosed rfl

/-- An event in the life of a channel: a send performed through the
handle `sid`, or the drop of the handle `sid`. -/
inductive ChEvent (α : Type) : Type where
  | send (sid : Nat) (m : α)
  | dropSender (sid : Nat)
deriving DecidableEq, Repr

def applyEvent {α : Type} (s : ChState α) : ChEvent α → ChState α
  | ChEvent.send sid m => (send s sid m).1
  | ChEvent.dropSender sid => { s with senders := s.senders.erase sid }

def runEvents {α : Type} (s : ChState α) (evs : List (ChEvent α)) : ChState α :=
  evs.foldl applyEvent s

/-- The messages whose send was performed, in order. -/
def okSends {α : Type} : List (ChEvent α) → List (Nat × α)
  | [] => []
  | ChEvent.send sid m :: evs => (sid, m) :: okSends evs
  | ChEvent.dropSender _ :: evs => okSends evs

theorem applyEvent_receiverAlive {α : Type} (s : ChState α) (e : ChEvent α) :
    (applyEvent s e).receiverAlive = s.receiverAlive := by
  cases e with
  | send sid m => exact send_fst_receiverAlive s sid m
  | dropSender sid => rfl

theorem runEvents_receiverAlive {α : Type} (evs : List (ChEvent α))
    (s : ChState α) : (runEvents s evs).receiverAlive = s.receiverAlive := by
  induction evs generalizing s with
  | nil => rfl
  | cons e rest ih =>
    unfold runEvents at *
    rw [List.foldl_cons, ih, applyEvent_receiverAlive]

theorem runEvents_queue {α : Type} (evs : List (ChEvent α)) (s : ChState α)
    (h : s.receiverAlive = true) :
    (runEvents s evs).queue = s.queue ++ okSends evs := by
  induction evs generalizing s with
  | nil => simp [runEvents, okSends]
  | cons e rest ih =>
    unfold runEvents at *
    rw [List.foldl_cons]
    cases e with
    | send sid m =>
      rw [ih _ (by rw [applyEvent_receiverAlive]; exact h)]
      show ((send s sid m).1).queue ++ okSends rest = _
      rw [send_fst_queue_alive _ _ _ h]
      simp [okSends]
    | dropSender sid =>
      rw [ih (applyEvent s (ChEvent.dropSender sid)) h]
      simp [okSends, applyEvent]

/-- C9: no message is lost or duplicated: running any interleaving of
sends and sender drops from a fresh channel, the receiver's drain yields
exactly the sent messages, once each, in arrival order — including
messages whose sender handle was dropped before delivery; every send in
such a run succeeds; and once every sender is dropped, the drained
channel signals `Disconnected`. -/
theorem no_lost_or_duplicated_messages :
    ∀ (α : Type) (S : Finset Nat) (evs : List (ChEvent α)),
      drainT (runEvents (emptyCh α S) evs) = okSends evs ∧
      (∀ (evs1 evs2 : List (ChEvent α)) (sid : Nat) (m : α),
          evs = evs1 ++ ChEvent.send sid m :: evs2 →
            (send (runEvents (emptyCh α S) evs1) sid m).2 = Except.ok ()) ∧
      ((runEvents (emptyCh α S) evs).senders = ∅ →
        (recvStep (drained (runEvents (emptyCh α S) evs))).2 =
          RecvResult.disconnected) := by
  intro α S evs
  refine ⟨?_, ?_, ?_⟩
  · rw [drainT_eq, runEvents_queue _ _ rfl]
    rfl
  · intro evs1 evs2 sid m _
    have hra : (runEvents (emptyCh α S) evs1).receiverAlive = true := by
      rw [runEvents_receiverAlive]; rfl
    simp [send, hra]
  · intro hs
    simp [recvStep, drained, hs]

def chDemoEvents : List (ChEvent Nat) := [ChEvent.send 0 7, ChEvent.dropSender 0]

theorem no_lost_or_duplicated_messages_witness :
    drainT (runEvents (emptyCh Nat {0}) chDemoEvents) = okSends chDemoEvents ∧
    (send (runEvents (emptyCh Nat {0}) []) 0 7).2 = Except.ok () ∧
    (recvStep (drained (runEvents (emptyCh Nat {0}) chDemoEvents))).2 =
      RecvResult.disconnected :=
  ⟨(no_lost_or_duplicated_messages Nat {0} chDemoEvents).1,
   (no_lost_or_duplicated_messages Nat {0} chDemoEvents).2.1 []
     [ChEvent.dropSender 0] 0 7 rfl,
   (no_lost_or_duplicated_messages Nat {0} chDemoEvents).2.2 (by decide)⟩

end RustFull
